import Mathlib

/-!
# Camera transform and interaction core of `src/glview.cc`

A shallow embedding of the matrix utilities (`mat_id`, `mat_mul`, `mat_rot`)
and of the event handlers of `GLView` that touch the camera state
(`keyPressEvent`, `wheelEvent`, `mousePressEvent`, `mouseMoveEvent`,
`mouseReleaseEvent`), followed by theorems about them.

Conventions of the embedding:

* `double` is an arbitrary linearly ordered field `α`; the theorems take
  `α = ℝ`, i.e. they read the arithmetic as exact real arithmetic.  Where the
  rounding of `double` decides a statement (the zoom factor underflowing to 0),
  `roundDouble` gives the binary64 value of an exact result and
  `GLView.wheelEvent_double` is `wheelEvent` with that rounding.
* `double[16]` is `Fin 16 → α`; a `for` loop over `0 .. n-1` is a left fold
  over `List.finRange n`; an assignment `a[i] = v` is `Function.update a i v`.
* `int` is `Int` (pointer coordinates; no wrap-around is modelled).
* `sin`, `cos`, `pow` and `M_PI` come from the C math library, which is not
  part of the file: they are the fields of the class `CMath`.
-/

namespace Glview

/-- The part of the C math library that `glview.cc` calls. -/
class CMath (α : Type) where
  /-- C `sin` -/
  sin : α → α
  /-- C `cos` -/
  cos : α → α
  /-- C `pow` -/
  pow : α → α → α
  /-- C `M_PI` -/
  M_PI : α

/-- The math library read as exact real analysis. -/
noncomputable instance instCMathReal : CMath ℝ where
  sin := Real.sin
  cos := Real.cos
  pow := Real.rpow
  M_PI := Real.pi

/-- A `double[16]`. -/
abbrev Mat (α : Type) := Fin 16 → α

/-- Contents given to a local array that the source declares without an
initialiser (`double m[16];`).  Every such array is written before it is
read; see `mat_id_trg`, `mat_mul_trg` and `mat_rot_trg`. -/
def uninit {α : Type} [Zero α] : Mat α := fun _ => 0

/-- The index expression `a + b*4` of `mat_mul`. -/
def idx (a b : Fin 4) : Fin 16 := ⟨a.val + b.val * 4, by omega⟩

section Matrices

variable {α : Type} [LinearOrderedField α]

/-- The loop `for (int i = 0; i < 16; i++) trg[i] = m[i];`. -/
def copy16 (trg m : Mat α) : Mat α :=
  (List.finRange 16).foldl (fun trg i => Function.update trg i (m i)) trg

/-- Function `static void mat_id(double *trg)`: the contents of `trg` after the call. -/
def mat_id (trg : Mat α) : Mat α :=
  (List.finRange 16).foldl
    (fun trg i => Function.update trg i (if i.val % 5 = 0 then 1 else 0)) trg

/-- Function `static void mat_mul(double *trg, const double *m1, const double *m2)`:
the contents of `trg` after the call.  The source accumulates into the local
`m` and copies `m` to `trg` only at the end, so `trg` may alias `m1` or `m2`;
here `m1` and `m2` are the contents before the call. -/
def mat_mul (trg m1 m2 : Mat α) : Mat α :=
  let m : Mat α := uninit
  let m := (List.finRange 4).foldl (fun m x =>
    (List.finRange 4).foldl (fun m y =>
      let m := Function.update m (idx x y) 0
      (List.finRange 4).foldl (fun m i =>
        Function.update m (idx x y) (m (idx x y) + m1 (idx i y) * m2 (idx x i))) m) m) m
  copy16 trg m

/-- Function `static void mat_rot(double *trg, double angle, double x, double y, double z)`:
the contents of `trg` after the call. -/
def mat_rot [CMath α] (trg : Mat α) (angle x y z : α) : Mat α :=
  let s := CMath.sin (CMath.M_PI * angle / 180)
  let c := CMath.cos (CMath.M_PI * angle / 180)
  let cc := 1 - c
  let m : Mat α := ![
    x*x*cc+c,   x*y*cc-z*s, x*z*cc+y*s, 0,
    y*x*cc+z*s, y*y*cc+c,   y*z*cc-x*s, 0,
    x*z*cc-y*s, y*z*cc+x*s, z*z*cc+c,   0,
    0,          0,          0,          1]
  copy16 trg m

end Matrices

/-! ## The widget state and its event handlers -/

/-- Value of `Qt::Key_Plus` in the Qt enum. -/
def Key_Plus : Int := 0x2b

/-- Value of `Qt::Key_Minus` in the Qt enum. -/
def Key_Minus : Int := 0x2d

/-- Value of `Qt::LeftButton` in the Qt enum. -/
def LeftButton : Nat := 0x00000001

/-- Value of `Qt::ShiftModifier` in the Qt enum. -/
def ShiftModifier : Nat := 0x02000000

/-- What the handlers read from a `QMouseEvent`, together with the value of
`QApplication::keyboardModifiers()` at the time of the call. -/
structure QMouseEvent where
  /-- Result of `event->globalX()` -/
  globalX : Int
  /-- Result of `event->globalY()` -/
  globalY : Int
  /-- Result of `event->buttons()` -/
  buttons : Nat
  /-- Result of `QApplication::keyboardModifiers()` -/
  keyboardModifiers : Nat
deriving DecidableEq, Repr

/-- The data members of `GLView` that the constructor and the event handlers
assign. -/
structure GLView (α : Type) where
  viewer_distance : α
  object_rot_x : α
  object_rot_y : α
  object_rot_z : α
  object_trans_x : α
  object_trans_y : α
  object_trans_z : α
  mouse_drag_active : Bool
  last_mouse_x : Int
  last_mouse_y : Int
  orthomode : Bool
  showaxes : Bool
  showcrosshairs : Bool

section Handlers

variable {α : Type} [LinearOrderedField α]

/-- The constructor `GLView::GLView`: the values it gives to the data members. -/
def GLView.ctor : GLView α where
  viewer_distance := 500
  object_rot_x := 35
  object_rot_y := 0
  object_rot_z := 25
  object_trans_x := 0
  object_trans_y := 0
  object_trans_z := 0
  mouse_drag_active := false
  last_mouse_x := 0
  last_mouse_y := 0
  orthomode := false
  showaxes := false
  showcrosshairs := false

/-- Handler `GLView::keyPressEvent`, with `key = event->key()`. -/
def GLView.keyPressEvent (self : GLView α) (key : Int) : GLView α :=
  if key = Key_Plus then
    { self with viewer_distance := self.viewer_distance * 0.9 }
  else if key = Key_Minus then
    { self with viewer_distance := self.viewer_distance / 0.9 }
  else
    self

/-- Handler `GLView::wheelEvent`, with `delta = event->delta()`, in exact arithmetic
(no rounding; `GLView.wheelEvent_double` is the same statement with the rounding
of the `double` type). -/
def GLView.wheelEvent [CMath α] (self : GLView α) (delta : Int) : GLView α :=
  { self with viewer_distance := self.viewer_distance * CMath.pow 0.9 ((delta : α) / 120.0) }

/-- Rounding to the nearest integer, a tie going to the even one. -/
def roundEven [FloorRing α] (y : α) : Int :=
  if Int.fract y < 1 / 2 then ⌊y⌋
  else if 1 / 2 < Int.fract y then ⌊y⌋ + 1
  else if ⌊y⌋ % 2 = 0 then ⌊y⌋ else ⌊y⌋ + 1

/-- The IEEE 754 binary64 value of an exact result `x` in the finite range,
rounded to nearest with ties to even: the doubles around `x` are the multiples
of `2^(e-52)`, where `e` is `⌊log2 |x|⌋` but at least `-1022` (below `2^-1022` the
doubles are the subnormals, spaced `2^-1074`).  Overflow to infinity is not
modelled. -/
def roundDouble [FloorRing α] (x : α) : α :=
  let e : Int := max (Int.log 2 |x|) (-1022)
  (roundEven (x / 2 ^ (e - 52)) : α) * 2 ^ (e - 52)

/-- Handler `GLView::wheelEvent` with the statement
`viewer_distance *= pow(0.9, event->delta() / 120.0);` evaluated in IEEE double
arithmetic instead of exact arithmetic: the literals `0.9` and `120.0` and the
result of the division, of `pow` and of the product are each rounded by
`roundDouble`; the conversion of the `int` delta to `double` is exact. -/
def GLView.wheelEvent_double [FloorRing α] [CMath α] (self : GLView α) (delta : Int) :
    GLView α :=
  { self with viewer_distance :=
      roundDouble (self.viewer_distance *
        roundDouble (CMath.pow (roundDouble 0.9)
          (roundDouble ((delta : α) / roundDouble 120.0)))) }

/-- Handler `GLView::mousePressEvent`. -/
def GLView.mousePressEvent (self : GLView α) (event : QMouseEvent) : GLView α :=
  { self with
    mouse_drag_active := true
    last_mouse_x := event.globalX
    last_mouse_y := event.globalY }

/-- The loop `while (v < 0) v += 360;`: the value of `v` when it exits. -/
def whileNegative [FloorRing α] (v : α) : α :=
  if v < 0 then whileNegative (v + 360) else v
termination_by ⌈-v / 360⌉.toNat
decreasing_by
  rename_i h
  have e : -(v + 360) / 360 = -v / 360 - 1 := by ring
  have p : 0 < ⌈-v / 360⌉ := Int.ceil_pos.mpr (div_pos (neg_pos.mpr h) (by norm_num))
  rw [e, Int.ceil_sub_one]
  omega

/-- The loop `while (v >= 360) v -= 360;`: the value of `v` when it exits. -/
def whileAtLeast360 [FloorRing α] (v : α) : α :=
  if v ≥ 360 then whileAtLeast360 (v - 360) else v
termination_by ⌊v / 360⌋.toNat
decreasing_by
  rename_i h
  have e : (v - 360) / 360 = v / 360 - 1 := by ring
  have p : 0 < ⌊v / 360⌋ := Int.floor_pos.mpr ((one_le_div (by norm_num)).mpr h)
  rw [e, Int.floor_sub_one]
  omega

/-- The matrix `tm` of the pan branch of `mouseMoveEvent` after
`mat_rot(rx, ..); mat_rot(ry, ..); mat_rot(rz, ..); mat_id(tm);
mat_mul(tm, rx, tm); mat_mul(tm, ry, tm); mat_mul(tm, rz, tm);`. -/
def pan_tm [CMath α] (object_rot_x object_rot_y object_rot_z : α) : Mat α :=
  let rx := mat_rot uninit (-object_rot_x) 1.0 0.0 0.0
  let ry := mat_rot uninit (-object_rot_y) 0.0 1.0 0.0
  let rz := mat_rot uninit (-object_rot_z) 0.0 0.0 1.0
  let tm := mat_id uninit
  let tm := mat_mul tm rx tm
  let tm := mat_mul tm ry tm
  let tm := mat_mul tm rz tm
  tm

/-- Handler `GLView::mouseMoveEvent`.  The calls `updateGL()` and
`emit doAnimateUpdate()` assign no data member and are left out. -/
def GLView.mouseMoveEvent [FloorRing α] [CMath α] (self : GLView α) (event : QMouseEvent) :
    GLView α :=
  let this_mouse_x := event.globalX
  let this_mouse_y := event.globalY
  let self :=
    if self.mouse_drag_active then
      if event.buttons &&& LeftButton ≠ 0 then
        let self := { self with
          object_rot_x := self.object_rot_x + ((this_mouse_y - self.last_mouse_y : Int) : α) * 0.7 }
        let self :=
          if event.keyboardModifiers &&& ShiftModifier ≠ 0 then
            { self with
              object_rot_y := self.object_rot_y + ((this_mouse_x - self.last_mouse_x : Int) : α) * 0.7 }
          else
            { self with
              object_rot_z := self.object_rot_z + ((this_mouse_x - self.last_mouse_x : Int) : α) * 0.7 }
        let self := { self with object_rot_x := whileNegative self.object_rot_x }
        let self := { self with object_rot_x := whileAtLeast360 self.object_rot_x }
        let self := { self with object_rot_y := whileNegative self.object_rot_y }
        let self := { self with object_rot_y := whileAtLeast360 self.object_rot_y }
        let self := { self with object_rot_z := whileNegative self.object_rot_z }
        let self := { self with object_rot_z := whileAtLeast360 self.object_rot_z }
        self
      else
        let mx : α := ((this_mouse_x - self.last_mouse_x : Int) : α) * self.viewer_distance / 1000
        let my : α := ((-(this_mouse_y - self.last_mouse_y) : Int) : α) * self.viewer_distance / 1000
        let tm := pan_tm self.object_rot_x self.object_rot_y self.object_rot_z
        let vec : Mat α := ![
          0, 0, 0, mx,
          0, 0, 0, 0,
          0, 0, 0, my,
          0, 0, 0, 1]
        let vec :=
          if event.keyboardModifiers &&& ShiftModifier ≠ 0 then
            let vec := Function.update vec 3 0
            let vec := Function.update vec 7 my
            let vec := Function.update vec 11 0
            vec
          else
            vec
        let tm := mat_mul tm tm vec
        { self with
          object_trans_x := self.object_trans_x + tm 3
          object_trans_y := self.object_trans_y + tm 7
          object_trans_z := self.object_trans_z + tm 11 }
    else
      self
  { self with
    last_mouse_x := this_mouse_x
    last_mouse_y := this_mouse_y }

/-- Handler `GLView::mouseReleaseEvent`. -/
def GLView.mouseReleaseEvent (self : GLView α) : GLView α :=
  { self with mouse_drag_active := false }

/-- The events the widget receives. -/
inductive Event where
  | keyPress (key : Int)
  | wheel (delta : Int)
  | mousePress (event : QMouseEvent)
  | mouseMove (event : QMouseEvent)
  | mouseRelease (event : QMouseEvent)
deriving DecidableEq, Repr

/-- Dispatch of one event to its handler. -/
def GLView.handle [FloorRing α] [CMath α] (self : GLView α) : Event → GLView α
  | .keyPress key => self.keyPressEvent key
  | .wheel delta => self.wheelEvent delta
  | .mousePress event => self.mousePressEvent event
  | .mouseMove event => self.mouseMoveEvent event
  | .mouseRelease _ => self.mouseReleaseEvent

/-- The handlers run one after the other on a sequence of events. -/
def GLView.run [FloorRing α] [CMath α] (self : GLView α) (events : List Event) : GLView α :=
  events.foldl GLView.handle self

end Handlers

/-! ## Vocabulary of the statements -/

/-- Row `k / 4` of the entry stored at index `k`. -/
def row (k : Fin 16) : Fin 4 := ⟨k.val / 4, by omega⟩

/-- Column `k % 4` of the entry stored at index `k`. -/
def col (k : Fin 16) : Fin 4 := ⟨k.val % 4, by omega⟩

/-- A `double[16]` read row-major as a 4×4 matrix: entry `(r, c)` is `m[c + r*4]`. -/
def toMatrix {α : Type} (m : Mat α) : Matrix (Fin 4) (Fin 4) α :=
  fun r c => m (idx c r)

/-- The top-left 3×3 block of a `double[16]` read row-major. -/
def block3 {α : Type} (m : Mat α) : Matrix (Fin 3) (Fin 3) α :=
  fun r c => m (idx (Fin.castSucc c) (Fin.castSucc r))

/-- The view rotation that `paintGL` sets up with `glRotated(object_rot_x, 1, 0, 0);
glRotated(object_rot_y, 0, 1, 0); glRotated(object_rot_z, 0, 0, 1);`, written as
the product `mat_rot(rx, 1,0,0) · mat_rot(ry, 0,1,0) · mat_rot(rz, 0,0,1)`. -/
def view_rot {α : Type} [LinearOrderedField α] [CMath α] (trg : Mat α) (rx ry rz : α) : Mat α :=
  mat_mul trg (mat_mul trg (mat_rot trg rx 1 0 0) (mat_rot trg ry 0 1 0)) (mat_rot trg rz 0 0 1)

/-- The specification's `a mod n` read as C `fmod(a, n)` in exact arithmetic:
`a - n * trunc(a / n)`, the quotient truncated toward zero, so the result has
the sign of `a`. -/
def spec_mod_trunc {α : Type} [LinearOrderedField α] [FloorRing α] (a n : α) : α :=
  a - n * (if 0 ≤ a / n then ((⌊a / n⌋ : Int) : α) else ((⌈a / n⌉ : Int) : α))

/-- The specification's `a mod n` read as the floored modulus `a - n * ⌊a / n⌋`. -/
def spec_mod_floor {α : Type} [LinearOrderedField α] [FloorRing α] (a n : α) : α :=
  a - n * ((⌊a / n⌋ : Int) : α)

/-- The specification's wrapped angle `((rx_old + d) mod 360 + 360) mod 360`, for
a reading `mod` of the modulus. -/
def spec_wrap {α : Type} [LinearOrderedField α] (mod : α → α → α) (rx_old d : α) : α :=
  mod (mod (rx_old + d) 360 + 360) 360

/-- The camera-state invariant: the three rotation angles lie in `[0, 360)` and
`viewer_distance` is positive. -/
def CameraInv {α : Type} [LinearOrderedField α] (s : GLView α) : Prop :=
  (0 ≤ s.object_rot_x ∧ s.object_rot_x < 360) ∧
  (0 ≤ s.object_rot_y ∧ s.object_rot_y < 360) ∧
  (0 ≤ s.object_rot_z ∧ s.object_rot_z < 360) ∧
  0 < s.viewer_distance

instance instDecidableCameraInv {α : Type} [LinearOrderedField α] (s : GLView α) :
    Decidable (CameraInv s) := by
  unfold CameraInv
  infer_instance

/-- A state in the middle of a drag: the constructor's state with the three
angles replaced and `mouse_drag_active` set. -/
def dragging {α : Type} [LinearOrderedField α] (rx ry rz : α) : GLView α :=
  { (GLView.ctor : GLView α) with
    object_rot_x := rx
    object_rot_y := ry
    object_rot_z := rz
    mouse_drag_active := true }

/-! ## Matrix utilities in closed form -/

theorem sin_real (x : ℝ) : CMath.sin x = Real.sin x := rfl

theorem cos_real (x : ℝ) : CMath.cos x = Real.cos x := rfl

theorem pow_real (x y : ℝ) : CMath.pow x y = x ^ y := rfl

theorem pi_real : (CMath.M_PI : ℝ) = Real.pi := rfl

theorem copy16_eq {α : Type} (trg m : Mat α) : copy16 trg m = m := by
  funext k
  fin_cases k <;> rfl

theorem mat_id_eq {α : Type} [LinearOrderedField α] (trg : Mat α) :
    mat_id trg = fun k => if k.val % 5 = 0 then 1 else 0 := by
  funext k
  fin_cases k <;> rfl

theorem mat_mul_eq {α : Type} [LinearOrderedField α] (trg m1 m2 : Mat α) :
    mat_mul trg m1 m2 = fun k =>
      0 + m1 (idx 0 (row k)) * m2 (idx (col k) 0) + m1 (idx 1 (row k)) * m2 (idx (col k) 1)
        + m1 (idx 2 (row k)) * m2 (idx (col k) 2) + m1 (idx 3 (row k)) * m2 (idx (col k) 3) := by
  funext k
  fin_cases k <;> rfl

theorem mat_rot_eq {α : Type} [LinearOrderedField α] [CMath α] (trg : Mat α) (angle x y z : α) :
    mat_rot trg angle x y z =
      ![x*x*(1 - CMath.cos (CMath.M_PI * angle / 180)) + CMath.cos (CMath.M_PI * angle / 180),
        x*y*(1 - CMath.cos (CMath.M_PI * angle / 180)) - z*CMath.sin (CMath.M_PI * angle / 180),
        x*z*(1 - CMath.cos (CMath.M_PI * angle / 180)) + y*CMath.sin (CMath.M_PI * angle / 180),
        0,
        y*x*(1 - CMath.cos (CMath.M_PI * angle / 180)) + z*CMath.sin (CMath.M_PI * angle / 180),
        y*y*(1 - CMath.cos (CMath.M_PI * angle / 180)) + CMath.cos (CMath.M_PI * angle / 180),
        y*z*(1 - CMath.cos (CMath.M_PI * angle / 180)) - x*CMath.sin (CMath.M_PI * angle / 180),
        0,
        x*z*(1 - CMath.cos (CMath.M_PI * angle / 180)) - y*CMath.sin (CMath.M_PI * angle / 180),
        y*z*(1 - CMath.cos (CMath.M_PI * angle / 180)) + x*CMath.sin (CMath.M_PI * angle / 180),
        z*z*(1 - CMath.cos (CMath.M_PI * angle / 180)) + CMath.cos (CMath.M_PI * angle / 180),
        0,
        0, 0, 0, 1] := by
  unfold mat_rot
  exact copy16_eq _ _

/-- The result of `mat_id` does not depend on what `trg` held before. -/
theorem mat_id_trg {α : Type} [LinearOrderedField α] (t1 t2 : Mat α) :
    mat_id t1 = mat_id t2 := by
  rw [mat_id_eq, mat_id_eq]

/-- The result of `mat_mul` does not depend on what `trg` held before. -/
theorem mat_mul_trg {α : Type} [LinearOrderedField α] (t1 t2 m1 m2 : Mat α) :
    mat_mul t1 m1 m2 = mat_mul t2 m1 m2 := by
  rw [mat_mul_eq, mat_mul_eq]

/-- The result of `mat_rot` does not depend on what `trg` held before. -/
theorem mat_rot_trg {α : Type} [LinearOrderedField α] [CMath α] (t1 t2 : Mat α)
    (angle x y z : α) : mat_rot t1 angle x y z = mat_rot t2 angle x y z := by
  rw [mat_rot_eq, mat_rot_eq]

theorem toMatrix_inj {α : Type} (a b : Mat α) (h : toMatrix a = toMatrix b) : a = b := by
  funext k
  have e : k = idx (col k) (row k) := by
    apply Fin.ext
    simp only [idx, col, row]
    omega
  have h2 := congrFun (congrFun h (row k)) (col k)
  simp only [toMatrix] at h2
  rw [e]
  exact h2

/-- The function `mat_mul` is the product of its arguments read row-major. -/
theorem toMatrix_mat_mul {α : Type} [LinearOrderedField α] (trg m1 m2 : Mat α) :
    toMatrix (mat_mul trg m1 m2) = toMatrix m1 * toMatrix m2 := by
  ext r c
  simp only [toMatrix, mat_mul_eq, Matrix.mul_apply, Fin.sum_univ_four]
  have hr : row (idx c r) = r := by
    apply Fin.ext
    simp only [idx, row]
    omega
  have hc : col (idx c r) = c := by
    apply Fin.ext
    simp only [idx, col]
    omega
  rw [hr, hc]
  ring

/-- The function `mat_id` gives the identity matrix. -/
theorem toMatrix_mat_id {α : Type} [LinearOrderedField α] (trg : Mat α) :
    toMatrix (mat_id trg) = 1 := by
  ext r c
  rw [mat_id_eq]
  fin_cases r <;> fin_cases c <;> rfl

theorem toMatrix_vec16 {α : Type} (a0 a1 a2 a3 a4 a5 a6 a7 a8 a9 a10 a11 a12 a13 a14 a15 : α) :
    toMatrix ![a0, a1, a2, a3, a4, a5, a6, a7, a8, a9, a10, a11, a12, a13, a14, a15] =
      !![a0, a1, a2, a3; a4, a5, a6, a7; a8, a9, a10, a11; a12, a13, a14, a15] := by
  ext i j
  fin_cases i <;> fin_cases j <;> rfl

theorem toMatrix_mat_rot_x (trg : Mat ℝ) (a : ℝ) :
    toMatrix (mat_rot trg a 1 0 0) =
      !![1, 0, 0, 0;
         0, Real.cos (Real.pi * a / 180), -Real.sin (Real.pi * a / 180), 0;
         0, Real.sin (Real.pi * a / 180), Real.cos (Real.pi * a / 180), 0;
         0, 0, 0, 1] := by
  rw [mat_rot_eq, toMatrix_vec16]
  simp [sin_real, cos_real, pi_real]

theorem toMatrix_mat_rot_y (trg : Mat ℝ) (a : ℝ) :
    toMatrix (mat_rot trg a 0 1 0) =
      !![Real.cos (Real.pi * a / 180), 0, Real.sin (Real.pi * a / 180), 0;
         0, 1, 0, 0;
         -Real.sin (Real.pi * a / 180), 0, Real.cos (Real.pi * a / 180), 0;
         0, 0, 0, 1] := by
  rw [mat_rot_eq, toMatrix_vec16]
  simp [sin_real, cos_real, pi_real]

theorem toMatrix_mat_rot_z (trg : Mat ℝ) (a : ℝ) :
    toMatrix (mat_rot trg a 0 0 1) =
      !![Real.cos (Real.pi * a / 180), -Real.sin (Real.pi * a / 180), 0, 0;
         Real.sin (Real.pi * a / 180), Real.cos (Real.pi * a / 180), 0, 0;
         0, 0, 1, 0;
         0, 0, 0, 1] := by
  rw [mat_rot_eq, toMatrix_vec16]
  simp [sin_real, cos_real, pi_real]

theorem angle_neg (a : ℝ) : Real.pi * (-a) / 180 = -(Real.pi * a / 180) := by ring

theorem rot_x_mul_neg (t1 t2 : Mat ℝ) (a : ℝ) :
    toMatrix (mat_rot t1 a 1 0 0) * toMatrix (mat_rot t2 (-a) 1 0 0) = 1 := by
  rw [toMatrix_mat_rot_x, toMatrix_mat_rot_x, angle_neg, Real.sin_neg, Real.cos_neg]
  have h1 := Real.sin_sq_add_cos_sq (Real.pi * a / 180)
  generalize Real.sin (Real.pi * a / 180) = s at h1
  generalize Real.cos (Real.pi * a / 180) = c at h1
  ext i j
  simp only [Matrix.mul_apply, Fin.sum_univ_four]
  fin_cases i <;> fin_cases j <;> simp [Matrix.one_apply, Matrix.vecHead, Matrix.vecTail] <;>
    first | linear_combination h1 | linear_combination (0 : ℝ) * h1

theorem rot_y_mul_neg (t1 t2 : Mat ℝ) (a : ℝ) :
    toMatrix (mat_rot t1 a 0 1 0) * toMatrix (mat_rot t2 (-a) 0 1 0) = 1 := by
  rw [toMatrix_mat_rot_y, toMatrix_mat_rot_y, angle_neg, Real.sin_neg, Real.cos_neg]
  have h1 := Real.sin_sq_add_cos_sq (Real.pi * a / 180)
  generalize Real.sin (Real.pi * a / 180) = s at h1
  generalize Real.cos (Real.pi * a / 180) = c at h1
  ext i j
  simp only [Matrix.mul_apply, Fin.sum_univ_four]
  fin_cases i <;> fin_cases j <;> simp [Matrix.one_apply, Matrix.vecHead, Matrix.vecTail] <;>
    first | linear_combination h1 | linear_combination (0 : ℝ) * h1

theorem rot_z_mul_neg (t1 t2 : Mat ℝ) (a : ℝ) :
    toMatrix (mat_rot t1 a 0 0 1) * toMatrix (mat_rot t2 (-a) 0 0 1) = 1 := by
  rw [toMatrix_mat_rot_z, toMatrix_mat_rot_z, angle_neg, Real.sin_neg, Real.cos_neg]
  have h1 := Real.sin_sq_add_cos_sq (Real.pi * a / 180)
  generalize Real.sin (Real.pi * a / 180) = s at h1
  generalize Real.cos (Real.pi * a / 180) = c at h1
  ext i j
  simp only [Matrix.mul_apply, Fin.sum_univ_four]
  fin_cases i <;> fin_cases j <;> simp [Matrix.one_apply, Matrix.vecHead, Matrix.vecTail] <;>
    first | linear_combination h1 | linear_combination (0 : ℝ) * h1

theorem one_point_zero : (1.0 : ℝ) = 1 := by norm_num

theorem zero_point_zero : (0.0 : ℝ) = 0 := by norm_num

/-- The matrix `tm` of the pan branch, as a product of matrices read row-major. -/
theorem toMatrix_pan_tm (t1 t2 t3 : Mat ℝ) (rx ry rz : ℝ) :
    toMatrix (pan_tm rx ry rz) =
      toMatrix (mat_rot t1 (-rz) 0 0 1) * toMatrix (mat_rot t2 (-ry) 0 1 0) *
        toMatrix (mat_rot t3 (-rx) 1 0 0) := by
  simp only [pan_tm, toMatrix_mat_mul, toMatrix_mat_id, mul_one, one_point_zero,
    zero_point_zero, mul_assoc]
  rw [mat_rot_trg uninit t1, mat_rot_trg uninit t2, mat_rot_trg uninit t3]

theorem block3_mat_rot (trg : Mat ℝ) (angle x y z : ℝ) :
    block3 (mat_rot trg angle x y z) =
      !![x*x*(1 - Real.cos (Real.pi * angle / 180)) + Real.cos (Real.pi * angle / 180),
         x*y*(1 - Real.cos (Real.pi * angle / 180)) - z*Real.sin (Real.pi * angle / 180),
         x*z*(1 - Real.cos (Real.pi * angle / 180)) + y*Real.sin (Real.pi * angle / 180);
         y*x*(1 - Real.cos (Real.pi * angle / 180)) + z*Real.sin (Real.pi * angle / 180),
         y*y*(1 - Real.cos (Real.pi * angle / 180)) + Real.cos (Real.pi * angle / 180),
         y*z*(1 - Real.cos (Real.pi * angle / 180)) - x*Real.sin (Real.pi * angle / 180);
         x*z*(1 - Real.cos (Real.pi * angle / 180)) - y*Real.sin (Real.pi * angle / 180),
         y*z*(1 - Real.cos (Real.pi * angle / 180)) + x*Real.sin (Real.pi * angle / 180),
         z*z*(1 - Real.cos (Real.pi * angle / 180)) + Real.cos (Real.pi * angle / 180)] := by
  rw [mat_rot_eq]
  ext i j
  fin_cases i <;> fin_cases j <;> rfl

/-! ## The wrap loops -/

theorem whileNegative_spec {α : Type} [LinearOrderedField α] [FloorRing α] (v : α) :
    0 ≤ whileNegative v ∧ (v < 0 → whileNegative v < 360) ∧ (0 ≤ v → whileNegative v = v) ∧
      ∃ n : ℕ, whileNegative v = v + 360 * (n : α) := by
  induction v using whileNegative.induct with
  | case1 v h ih =>
    obtain ⟨i1, i2, i3, n, i4⟩ := ih
    rw [whileNegative, if_pos h]
    refine ⟨i1, fun _ => ?_, fun h0 => absurd h (not_lt.mpr h0), n + 1, ?_⟩
    · rcases lt_or_le (v + 360) 0 with h' | h'
      · exact i2 h'
      · rw [i3 h']
        linarith
    · rw [i4]
      push_cast
      ring
  | case2 v h =>
    rw [whileNegative, if_neg h]
    exact ⟨not_lt.mp h, fun h' => absurd h' h, fun _ => rfl, 0, by simp⟩

theorem whileAtLeast360_spec {α : Type} [LinearOrderedField α] [FloorRing α] (v : α) :
    whileAtLeast360 v < 360 ∧ (0 ≤ v → 0 ≤ whileAtLeast360 v) ∧
      (v < 360 → whileAtLeast360 v = v) ∧ ∃ n : ℕ, whileAtLeast360 v = v - 360 * (n : α) := by
  induction v using whileAtLeast360.induct with
  | case1 v h ih =>
    obtain ⟨i1, i2, i3, n, i4⟩ := ih
    rw [whileAtLeast360, if_pos h]
    refine ⟨i1, fun _ => i2 (by linarith), fun h0 => absurd h (not_le.mpr h0), n + 1, ?_⟩
    rw [i4]
    push_cast
    ring
  | case2 v h =>
    rw [whileAtLeast360, if_neg h]
    exact ⟨not_le.mp h, fun h' => h', fun _ => rfl, 0, by simp⟩

/-- After both loops the angle lies in `[0, 360)`. -/
theorem wrap_mem {α : Type} [LinearOrderedField α] [FloorRing α] (v : α) :
    0 ≤ whileAtLeast360 (whileNegative v) ∧ whileAtLeast360 (whileNegative v) < 360 :=
  ⟨(whileAtLeast360_spec _).2.1 (whileNegative_spec v).1, (whileAtLeast360_spec _).1⟩

/-- A value in `[0, 360)` that differs from `v` by a multiple of 360 is
`v - 360 * ⌊v / 360⌋`. -/
theorem eq_floor_of_mem {α : Type} [LinearOrderedField α] [FloorRing α] (v w : α) (k : ℤ)
    (h0 : 0 ≤ w) (h1 : w < 360) (hk : w = v + 360 * (k : α)) :
    w = v - 360 * ((⌊v / 360⌋ : ℤ) : α) := by
  have e : v / 360 = w / 360 - (k : α) := by
    rw [hk]
    ring
  have f : ⌊w / 360⌋ = 0 := by
    rw [Int.floor_eq_zero_iff]
    constructor
    · positivity
    · rw [div_lt_one (by norm_num)]
      exact h1
  rw [e, Int.floor_sub_int, f, hk]
  push_cast
  ring

/-- Both loops together compute `v - 360 * ⌊v / 360⌋`, after `n` additions and
`m` subtractions of 360. -/
theorem wrap_eq {α : Type} [LinearOrderedField α] [FloorRing α] (v : α) :
    whileAtLeast360 (whileNegative v) = v - 360 * ((⌊v / 360⌋ : ℤ) : α) ∧
      ∃ n m : ℕ, whileAtLeast360 (whileNegative v) = v + 360 * (n : α) - 360 * (m : α) := by
  obtain ⟨n, hn⟩ := (whileNegative_spec v).2.2.2
  obtain ⟨m, hm⟩ := (whileAtLeast360_spec (whileNegative v)).2.2.2
  have hw := wrap_mem v
  refine ⟨eq_floor_of_mem v _ ((n : ℤ) - (m : ℤ)) hw.1 hw.2 ?_, n, m, ?_⟩
  · rw [hm, hn]
    push_cast
    ring
  · rw [hm, hn]

theorem spec_wrap_floor {α : Type} [LinearOrderedField α] [FloorRing α] (rx d : α) :
    spec_wrap spec_mod_floor rx d = (rx + d) - 360 * ((⌊(rx + d) / 360⌋ : ℤ) : α) := by
  simp only [spec_wrap, spec_mod_floor]
  have e : ((rx + d) - 360 * ((⌊(rx + d) / 360⌋ : ℤ) : α) + 360) / 360 =
      (rx + d) / 360 - ((⌊(rx + d) / 360⌋ - 1 : ℤ) : α) := by
    push_cast
    ring
  rw [e, Int.floor_sub_int]
  push_cast
  ring

theorem spec_wrap_trunc {α : Type} [LinearOrderedField α] [FloorRing α] (rx d : α) :
    spec_wrap spec_mod_trunc rx d = (rx + d) - 360 * ((⌊(rx + d) / 360⌋ : ℤ) : α) := by
  have key : ∀ t : ℤ, (t : α) - 1 ≤ (rx + d) / 360 →
      spec_mod_trunc ((rx + d) - 360 * (t : α) + 360) 360 =
        (rx + d) - 360 * ((⌊(rx + d) / 360⌋ : ℤ) : α) := by
    intro t ht
    have e : ((rx + d) - 360 * (t : α) + 360) / 360 = (rx + d) / 360 - ((t - 1 : ℤ) : α) := by
      push_cast
      ring
    have p : 0 ≤ (rx + d) / 360 - ((t - 1 : ℤ) : α) := by
      push_cast
      linarith
    rw [spec_mod_trunc, e, if_pos p, Int.floor_sub_int]
    push_cast
    ring
  simp only [spec_wrap]
  by_cases h : 0 ≤ (rx + d) / 360
  · have e : spec_mod_trunc (rx + d) 360 = (rx + d) - 360 * ((⌊(rx + d) / 360⌋ : ℤ) : α) := by
      rw [spec_mod_trunc, if_pos h]
    rw [e]
    exact key _ (by linarith [Int.floor_le ((rx + d) / 360)])
  · have e : spec_mod_trunc (rx + d) 360 = (rx + d) - 360 * ((⌈(rx + d) / 360⌉ : ℤ) : α) := by
      rw [spec_mod_trunc, if_neg h]
    rw [e]
    exact key _ (by linarith [Int.ceil_lt_add_one ((rx + d) / 360)])

/-! ## The handlers in closed form -/

theorem mat_mul_col3 {α : Type} [LinearOrderedField α] (t m : Mat α) (v3 v7 v11 : α) :
    mat_mul t m ![0, 0, 0, v3, 0, 0, 0, v7, 0, 0, 0, v11, 0, 0, 0, 1] 3 =
        m 0 * v3 + m 1 * v7 + m 2 * v11 + m 3 ∧
      mat_mul t m ![0, 0, 0, v3, 0, 0, 0, v7, 0, 0, 0, v11, 0, 0, 0, 1] 7 =
        m 4 * v3 + m 5 * v7 + m 6 * v11 + m 7 ∧
      mat_mul t m ![0, 0, 0, v3, 0, 0, 0, v7, 0, 0, 0, v11, 0, 0, 0, 1] 11 =
        m 8 * v3 + m 9 * v7 + m 10 * v11 + m 11 := by
  rw [mat_mul_eq]
  refine ⟨?_, ?_, ?_⟩
  · show 0 + m 0 * v3 + m 1 * v7 + m 2 * v11 + m 3 * 1 = _
    ring
  · show 0 + m 4 * v3 + m 5 * v7 + m 6 * v11 + m 7 * 1 = _
    ring
  · show 0 + m 8 * v3 + m 9 * v7 + m 10 * v11 + m 11 * 1 = _
    ring

theorem vec_shift {α : Type} [LinearOrderedField α] (mx my : α) :
    Function.update (Function.update (Function.update
      (![0, 0, 0, mx, 0, 0, 0, 0, 0, 0, 0, my, 0, 0, 0, 1] : Mat α) 3 0) 7 my) 11 0 =
      ![0, 0, 0, 0, 0, 0, 0, my, 0, 0, 0, 0, 0, 0, 0, 1] := by
  funext k
  fin_cases k <;> rfl

/-- The rotate branch of `mouseMoveEvent`. -/
theorem mouseMove_rotate {α : Type} [LinearOrderedField α] [FloorRing α] [CMath α]
    (s : GLView α) (ev : QMouseEvent) (hd : s.mouse_drag_active = true)
    (hl : ev.buttons &&& LeftButton ≠ 0) :
    s.mouseMoveEvent ev =
      { s with
        object_rot_x := whileAtLeast360 (whileNegative
          (s.object_rot_x + ((ev.globalY - s.last_mouse_y : ℤ) : α) * 0.7))
        object_rot_y := whileAtLeast360 (whileNegative
          (if ev.keyboardModifiers &&& ShiftModifier ≠ 0 then
            s.object_rot_y + ((ev.globalX - s.last_mouse_x : ℤ) : α) * 0.7
          else s.object_rot_y))
        object_rot_z := whileAtLeast360 (whileNegative
          (if ev.keyboardModifiers &&& ShiftModifier ≠ 0 then s.object_rot_z
          else s.object_rot_z + ((ev.globalX - s.last_mouse_x : ℤ) : α) * 0.7))
        last_mouse_x := ev.globalX
        last_mouse_y := ev.globalY } := by
  unfold GLView.mouseMoveEvent
  simp only [hd, if_true, if_pos hl]
  split <;> rfl

/-- The pan branch of `mouseMoveEvent` when Shift is not held. -/
theorem mouseMove_pan {α : Type} [LinearOrderedField α] [FloorRing α] [CMath α]
    (s : GLView α) (ev : QMouseEvent) (hd : s.mouse_drag_active = true)
    (hl : ev.buttons &&& LeftButton = 0) (hs : ev.keyboardModifiers &&& ShiftModifier = 0) :
    s.mouseMoveEvent ev =
      { s with
        object_trans_x := s.object_trans_x +
          (pan_tm s.object_rot_x s.object_rot_y s.object_rot_z 0 *
              (((ev.globalX - s.last_mouse_x : ℤ) : α) * s.viewer_distance / 1000) +
            pan_tm s.object_rot_x s.object_rot_y s.object_rot_z 1 * 0 +
            pan_tm s.object_rot_x s.object_rot_y s.object_rot_z 2 *
              (((-(ev.globalY - s.last_mouse_y) : ℤ) : α) * s.viewer_distance / 1000) +
            pan_tm s.object_rot_x s.object_rot_y s.object_rot_z 3)
        object_trans_y := s.object_trans_y +
          (pan_tm s.object_rot_x s.object_rot_y s.object_rot_z 4 *
              (((ev.globalX - s.last_mouse_x : ℤ) : α) * s.viewer_distance / 1000) +
            pan_tm s.object_rot_x s.object_rot_y s.object_rot_z 5 * 0 +
            pan_tm s.object_rot_x s.object_rot_y s.object_rot_z 6 *
              (((-(ev.globalY - s.last_mouse_y) : ℤ) : α) * s.viewer_distance / 1000) +
            pan_tm s.object_rot_x s.object_rot_y s.object_rot_z 7)
        object_trans_z := s.object_trans_z +
          (pan_tm s.object_rot_x s.object_rot_y s.object_rot_z 8 *
              (((ev.globalX - s.last_mouse_x : ℤ) : α) * s.viewer_distance / 1000) +
            pan_tm s.object_rot_x s.object_rot_y s.object_rot_z 9 * 0 +
            pan_tm s.object_rot_x s.object_rot_y s.object_rot_z 10 *
              (((-(ev.globalY - s.last_mouse_y) : ℤ) : α) * s.viewer_distance / 1000) +
            pan_tm s.object_rot_x s.object_rot_y s.object_rot_z 11)
        last_mouse_x := ev.globalX
        last_mouse_y := ev.globalY } := by
  have hl2 : ¬ (ev.buttons &&& LeftButton ≠ 0) := not_not.mpr hl
  have hs2 : ¬ (ev.keyboardModifiers &&& ShiftModifier ≠ 0) := not_not.mpr hs
  unfold GLView.mouseMoveEvent
  simp only [hd, if_true, if_neg hl2, if_neg hs2]
  obtain ⟨e3, e7, e11⟩ := mat_mul_col3
    (pan_tm s.object_rot_x s.object_rot_y s.object_rot_z)
    (pan_tm s.object_rot_x s.object_rot_y s.object_rot_z)
    (((ev.globalX - s.last_mouse_x : ℤ) : α) * s.viewer_distance / 1000) 0
    (((-(ev.globalY - s.last_mouse_y) : ℤ) : α) * s.viewer_distance / 1000)
  rw [e3, e7, e11]

/-- The pan branch of `mouseMoveEvent` when Shift is held. -/
theorem mouseMove_pan_shift {α : Type} [LinearOrderedField α] [FloorRing α] [CMath α]
    (s : GLView α) (ev : QMouseEvent) (hd : s.mouse_drag_active = true)
    (hl : ev.buttons &&& LeftButton = 0) (hs : ev.keyboardModifiers &&& ShiftModifier ≠ 0) :
    s.mouseMoveEvent ev =
      { s with
        object_trans_x := s.object_trans_x +
          (pan_tm s.object_rot_x s.object_rot_y s.object_rot_z 0 * 0 +
            pan_tm s.object_rot_x s.object_rot_y s.object_rot_z 1 *
              (((-(ev.globalY - s.last_mouse_y) : ℤ) : α) * s.viewer_distance / 1000) +
            pan_tm s.object_rot_x s.object_rot_y s.object_rot_z 2 * 0 +
            pan_tm s.object_rot_x s.object_rot_y s.object_rot_z 3)
        object_trans_y := s.object_trans_y +
          (pan_tm s.object_rot_x s.object_rot_y s.object_rot_z 4 * 0 +
            pan_tm s.object_rot_x s.object_rot_y s.object_rot_z 5 *
              (((-(ev.globalY - s.last_mouse_y) : ℤ) : α) * s.viewer_distance / 1000) +
            pan_tm s.object_rot_x s.object_rot_y s.object_rot_z 6 * 0 +
            pan_tm s.object_rot_x s.object_rot_y s.object_rot_z 7)
        object_trans_z := s.object_trans_z +
          (pan_tm s.object_rot_x s.object_rot_y s.object_rot_z 8 * 0 +
            pan_tm s.object_rot_x s.object_rot_y s.object_rot_z 9 *
              (((-(ev.globalY - s.last_mouse_y) : ℤ) : α) * s.viewer_distance / 1000) +
            pan_tm s.object_rot_x s.object_rot_y s.object_rot_z 10 * 0 +
            pan_tm s.object_rot_x s.object_rot_y s.object_rot_z 11)
        last_mouse_x := ev.globalX
        last_mouse_y := ev.globalY } := by
  have hl2 : ¬ (ev.buttons &&& LeftButton ≠ 0) := not_not.mpr hl
  unfold GLView.mouseMoveEvent
  simp only [hd, if_true, if_neg hl2, if_pos hs, vec_shift]
  obtain ⟨e3, e7, e11⟩ := mat_mul_col3
    (pan_tm s.object_rot_x s.object_rot_y s.object_rot_z)
    (pan_tm s.object_rot_x s.object_rot_y s.object_rot_z)
    0 (((-(ev.globalY - s.last_mouse_y) : ℤ) : α) * s.viewer_distance / 1000) 0
  rw [e3, e7, e11]

/-- Without an active drag `mouseMoveEvent` only records the pointer position. -/
theorem mouseMove_idle {α : Type} [LinearOrderedField α] [FloorRing α] [CMath α]
    (s : GLView α) (ev : QMouseEvent) (hd : s.mouse_drag_active = false) :
    s.mouseMoveEvent ev = { s with last_mouse_x := ev.globalX, last_mouse_y := ev.globalY } := by
  unfold GLView.mouseMoveEvent
  simp [hd]

/-- The translation column of `tm` is zero. -/
theorem pan_tm_col3 (rx ry rz : ℝ) :
    pan_tm rx ry rz 3 = 0 ∧ pan_tm rx ry rz 7 = 0 ∧ pan_tm rx ry rz 11 = 0 := by
  have h := toMatrix_pan_tm uninit uninit uninit rx ry rz
  rw [toMatrix_mat_rot_x, toMatrix_mat_rot_y, toMatrix_mat_rot_z] at h
  refine ⟨?_, ?_, ?_⟩
  · have e := congrFun (congrFun h 0) 3
    simp only [Matrix.mul_apply, Fin.sum_univ_four] at e
    simpa [toMatrix, idx, Matrix.vecHead, Matrix.vecTail] using e
  · have e := congrFun (congrFun h 1) 3
    simp only [Matrix.mul_apply, Fin.sum_univ_four] at e
    simpa [toMatrix, idx, Matrix.vecHead, Matrix.vecTail] using e
  · have e := congrFun (congrFun h 2) 3
    simp only [Matrix.mul_apply, Fin.sum_univ_four] at e
    simpa [toMatrix, idx, Matrix.vecHead, Matrix.vecTail] using e

/-- The bottom row of `tm` is `0 0 0 1`. -/
theorem pan_tm_row3 (rx ry rz : ℝ) :
    pan_tm rx ry rz 12 = 0 ∧ pan_tm rx ry rz 13 = 0 ∧ pan_tm rx ry rz 14 = 0 := by
  have h := toMatrix_pan_tm uninit uninit uninit rx ry rz
  rw [toMatrix_mat_rot_x, toMatrix_mat_rot_y, toMatrix_mat_rot_z] at h
  refine ⟨?_, ?_, ?_⟩
  · have e := congrFun (congrFun h 3) 0
    simp only [Matrix.mul_apply, Fin.sum_univ_four] at e
    simpa [toMatrix, idx, Matrix.vecHead, Matrix.vecTail] using e
  · have e := congrFun (congrFun h 3) 1
    simp only [Matrix.mul_apply, Fin.sum_univ_four] at e
    simpa [toMatrix, idx, Matrix.vecHead, Matrix.vecTail] using e
  · have e := congrFun (congrFun h 3) 2
    simp only [Matrix.mul_apply, Fin.sum_univ_four] at e
    simpa [toMatrix, idx, Matrix.vecHead, Matrix.vecTail] using e

/-- The view rotation times `tm` is the identity. -/
theorem view_rot_mul_pan_tm (trg : Mat ℝ) (rx ry rz : ℝ) :
    toMatrix (view_rot trg rx ry rz) * toMatrix (pan_tm rx ry rz) = 1 := by
  rw [view_rot, toMatrix_mat_mul, toMatrix_mat_mul, toMatrix_pan_tm trg trg trg]
  have e : ∀ A B C C2 B2 A2 : Matrix (Fin 4) (Fin 4) ℝ,
      A * B * C * (C2 * B2 * A2) = A * (B * (C * C2) * B2) * A2 := by
    intro A B C C2 B2 A2
    simp only [mul_assoc]
  rw [e, rot_z_mul_neg, mul_one, rot_y_mul_neg, mul_one, rot_x_mul_neg]

/-- Every handler preserves the camera-state invariant. -/
theorem handle_preserves (s : GLView ℝ) (e : Event) (h : CameraInv s) :
    CameraInv (s.handle e) := by
  obtain ⟨hx, hy, hz, hv⟩ := h
  cases e with
  | keyPress key =>
    simp only [GLView.handle, GLView.keyPressEvent]
    split_ifs
    · exact ⟨hx, hy, hz, mul_pos hv (by norm_num)⟩
    · exact ⟨hx, hy, hz, div_pos hv (by norm_num)⟩
    · exact ⟨hx, hy, hz, hv⟩
  | wheel delta =>
    exact ⟨hx, hy, hz, mul_pos hv (Real.rpow_pos_of_pos (by norm_num) _)⟩
  | mousePress event => exact ⟨hx, hy, hz, hv⟩
  | mouseMove event =>
    simp only [GLView.handle]
    by_cases hd : s.mouse_drag_active = true
    · by_cases hl : event.buttons &&& LeftButton = 0
      · by_cases hs : event.keyboardModifiers &&& ShiftModifier = 0
        · rw [mouseMove_pan s event hd hl hs]
          exact ⟨hx, hy, hz, hv⟩
        · rw [mouseMove_pan_shift s event hd hl hs]
          exact ⟨hx, hy, hz, hv⟩
      · rw [mouseMove_rotate s event hd hl]
        exact ⟨wrap_mem _, wrap_mem _, wrap_mem _, hv⟩
    · rw [mouseMove_idle s event (by simpa using hd)]
      exact ⟨hx, hy, hz, hv⟩
  | mouseRelease event => exact ⟨hx, hy, hz, hv⟩

/-- Every finite sequence of events preserves the camera-state invariant. -/
theorem run_preserves (evs : List Event) (s : GLView ℝ) (h : CameraInv s) :
    CameraInv (s.run evs) := by
  induction evs generalizing s with
  | nil => exact h
  | cons e rest ih => exact ih (s.handle e) (handle_preserves s e h)

theorem ctor_inv : CameraInv (GLView.ctor : GLView ℝ) := by
  simp only [CameraInv, GLView.ctor]
  norm_num

/-- The entries of `view_rot · tm = 1` that the pan increment meets. -/
theorem view_rot_pan_tm_entries (trg : Mat ℝ) (rx ry rz : ℝ) :
    (view_rot trg rx ry rz 0 * pan_tm rx ry rz 0 + view_rot trg rx ry rz 1 * pan_tm rx ry rz 4 +
        view_rot trg rx ry rz 2 * pan_tm rx ry rz 8 +
        view_rot trg rx ry rz 3 * pan_tm rx ry rz 12 = 1 ∧
      view_rot trg rx ry rz 0 * pan_tm rx ry rz 2 + view_rot trg rx ry rz 1 * pan_tm rx ry rz 6 +
        view_rot trg rx ry rz 2 * pan_tm rx ry rz 10 +
        view_rot trg rx ry rz 3 * pan_tm rx ry rz 14 = 0) ∧
    (view_rot trg rx ry rz 4 * pan_tm rx ry rz 0 + view_rot trg rx ry rz 5 * pan_tm rx ry rz 4 +
        view_rot trg rx ry rz 6 * pan_tm rx ry rz 8 +
        view_rot trg rx ry rz 7 * pan_tm rx ry rz 12 = 0 ∧
      view_rot trg rx ry rz 4 * pan_tm rx ry rz 2 + view_rot trg rx ry rz 5 * pan_tm rx ry rz 6 +
        view_rot trg rx ry rz 6 * pan_tm rx ry rz 10 +
        view_rot trg rx ry rz 7 * pan_tm rx ry rz 14 = 0) ∧
    (view_rot trg rx ry rz 8 * pan_tm rx ry rz 0 + view_rot trg rx ry rz 9 * pan_tm rx ry rz 4 +
        view_rot trg rx ry rz 10 * pan_tm rx ry rz 8 +
        view_rot trg rx ry rz 11 * pan_tm rx ry rz 12 = 0 ∧
      view_rot trg rx ry rz 8 * pan_tm rx ry rz 2 + view_rot trg rx ry rz 9 * pan_tm rx ry rz 6 +
        view_rot trg rx ry rz 10 * pan_tm rx ry rz 10 +
        view_rot trg rx ry rz 11 * pan_tm rx ry rz 14 = 1) := by
  have hV := view_rot_mul_pan_tm trg rx ry rz
  refine ⟨⟨?_, ?_⟩, ⟨?_, ?_⟩, ⟨?_, ?_⟩⟩
  · have e := congrFun (congrFun hV 0) 0
    rw [Matrix.mul_apply, Fin.sum_univ_four] at e
    exact e
  · have e := congrFun (congrFun hV 0) 2
    rw [Matrix.mul_apply, Fin.sum_univ_four] at e
    exact e
  · have e := congrFun (congrFun hV 1) 0
    rw [Matrix.mul_apply, Fin.sum_univ_four] at e
    exact e
  · have e := congrFun (congrFun hV 1) 2
    rw [Matrix.mul_apply, Fin.sum_univ_four] at e
    exact e
  · have e := congrFun (congrFun hV 2) 0
    rw [Matrix.mul_apply, Fin.sum_univ_four] at e
    exact e
  · have e := congrFun (congrFun hV 2) 2
    rw [Matrix.mul_apply, Fin.sum_univ_four] at e
    exact e

/-! ## Zoom in double arithmetic -/

/-- An integer within less than one half of `y` is what `y` rounds to. -/
theorem roundEven_eq (y : ℝ) (n : ℤ) (h : |y - n| < 1 / 2) : roundEven y = n := by
  rw [abs_lt] at h
  by_cases hn : (n : ℝ) ≤ y
  · have hf : ⌊y⌋ = n := Int.floor_eq_iff.mpr ⟨hn, by linarith⟩
    have h1 : Int.fract y < 1 / 2 := by
      rw [Int.fract, hf]
      linarith
    rw [roundEven, if_pos h1, hf]
  · have hf : ⌊y⌋ = n - 1 := Int.floor_eq_iff.mpr ⟨by push_cast; linarith, by push_cast; linarith⟩
    have hfr : Int.fract y = y - ((n : ℝ) - 1) := by
      rw [Int.fract, hf]
      push_cast
      ring
    have h1 : ¬ Int.fract y < 1 / 2 := by
      rw [hfr]
      linarith
    have h2 : 1 / 2 < Int.fract y := by
      rw [hfr]
      linarith
    rw [roundEven, if_neg h1, if_pos h2, hf]
    ring

/-- The double nearest to `x`, given the binade of `x` and the nearest multiple of
the spacing. -/
theorem roundDouble_eq (x : ℝ) (e n : ℤ) (he : -1022 ≤ e) (h1 : (2 : ℝ) ^ e ≤ |x|)
    (h2 : |x| < (2 : ℝ) ^ (e + 1)) (hn : |x / 2 ^ (e - 52) - n| < 1 / 2) :
    roundDouble x = n * 2 ^ (e - 52) := by
  have hpos : 0 < |x| := lt_of_lt_of_le (zpow_pos (by norm_num) e) h1
  have hlog : Int.log 2 |x| = e := by
    apply le_antisymm
    · have h := (Int.lt_zpow_iff_log_lt (b := 2) (by norm_num) hpos).mp (by simpa using h2)
      omega
    · exact (Int.zpow_le_iff_le_log (b := 2) (by norm_num) hpos).mp (by simpa using h1)
  unfold roundDouble
  simp only [hlog, max_eq_left he]
  rw [roundEven_eq _ n hn]

/-- An exact result below half the smallest subnormal `2^-1074` rounds to 0. -/
theorem roundDouble_small (x : ℝ) (h : |x| < (2 : ℝ) ^ (-1075 : ℤ)) : roundDouble x = 0 := by
  have key : ∀ e : ℤ, roundEven (x / 2 ^ (e - 52)) = 0 →
      ((roundEven (x / 2 ^ (e - 52)) : ℤ) : ℝ) * 2 ^ (e - 52) = 0 := by
    intro e h0
    rw [h0]
    simp
  unfold roundDouble
  by_cases hx : x = 0
  · subst hx
    apply key
    apply roundEven_eq
    simp
  · have hpos : 0 < |x| := abs_pos.mpr hx
    have hlog : Int.log 2 |x| < -1075 :=
      (Int.lt_zpow_iff_log_lt (b := 2) (by norm_num) hpos).mp (by simpa using h)
    simp only [max_eq_right (show Int.log 2 |x| ≤ -1022 by omega)]
    apply key
    apply roundEven_eq
    have e2 : (2 : ℝ) ^ (-1075 : ℤ) = 1 / 2 * 2 ^ (-1022 - 52 : ℤ) := by
      rw [show (-1075 : ℤ) = -1 + (-1022 - 52) by norm_num, zpow_add₀ (by norm_num)]
      norm_num
    have p : (0 : ℝ) < 2 ^ (-1022 - 52 : ℤ) := zpow_pos (by norm_num) _
    rw [Int.cast_zero, sub_zero, abs_div, abs_of_pos p, div_lt_iff₀ p]
    rw [← e2]
    exact h


theorem roundDouble_120 : roundDouble (120.0 : ℝ) = 120 := by
  rw [roundDouble_eq 120.0 6 (120 * 2 ^ 46) (by norm_num) (by norm_num) (by norm_num)
    (by norm_num)]
  norm_num

theorem roundDouble_7700 : roundDouble (7700 : ℝ) = 7700 := by
  rw [roundDouble_eq 7700 12 (7700 * 2 ^ 40) (by norm_num) (by norm_num) (by norm_num)
    (by norm_num)]
  norm_num

theorem roundDouble_0_9 : roundDouble (0.9 : ℝ) = 8106479329266893 / 2 ^ 53 := by
  have a : |(0.9 : ℝ)| = 0.9 := abs_of_pos (by norm_num)
  rw [roundDouble_eq 0.9 (-1) 8106479329266893 (by norm_num) (by rw [a]; norm_num)
    (by rw [a]; norm_num) (by norm_num [abs_lt])]
  norm_num

theorem pow_7700_small (c : ℝ) (h0 : 0 ≤ c) (h1 : c ≤ 1) (h33 : c ^ 33 < (1 / 2) ^ 5) :
    |c ^ 7700| < (2 : ℝ) ^ (-1075 : ℤ) := by
  have e : c ^ 7700 = (c ^ 33) ^ 233 * c ^ 11 := by
    rw [← pow_mul, ← pow_add]
  have a : (c ^ 33) ^ 233 < ((1 / 2 : ℝ) ^ 5) ^ 233 :=
    pow_lt_pow_left₀ h33 (pow_nonneg h0 33) (by norm_num)
  have b : c ^ 11 ≤ 1 := pow_le_one₀ h0 h1
  have d : ((1 / 2 : ℝ) ^ 5) ^ 233 ≤ (2 : ℝ) ^ (-1075 : ℤ) := by
    have m : (5 * 233 : ℕ) = 1165 := by norm_num
    have z : ((1165 : ℕ) : ℤ) = 1165 := by norm_num
    have l : (-1165 : ℤ) ≤ -1075 := by norm_num
    rw [← pow_mul, m, one_div, inv_pow, ← zpow_natCast, ← zpow_neg, z]
    exact zpow_le_zpow_right₀ (one_le_two : (1 : ℝ) ≤ 2) l
  have p : 0 ≤ (c ^ 33) ^ 233 := pow_nonneg (pow_nonneg h0 33) 233
  rw [abs_of_nonneg (pow_nonneg h0 7700), e]
  calc (c ^ 33) ^ 233 * c ^ 11 ≤ (c ^ 33) ^ 233 * 1 := mul_le_mul_of_nonneg_left b p
    _ = (c ^ 33) ^ 233 := mul_one _
    _ < ((1 / 2 : ℝ) ^ 5) ^ 233 := a
    _ ≤ _ := d

/-- One `wheelEvent` of 7700 notches in double arithmetic takes the constructor's
distance to 0: `pow(0.9, 7700.0)` is below half the smallest subnormal. -/
theorem wheelEvent_double_924000 :
    ((GLView.ctor : GLView ℝ).wheelEvent_double 924000).viewer_distance = 0 := by
  have q : ((924000 : ℤ) : ℝ) / 120 = 7700 := by norm_num
  have n : ((7700 : ℕ) : ℝ) = 7700 := by norm_num
  simp only [GLView.wheelEvent_double, GLView.ctor, pow_real, roundDouble_120, q,
    roundDouble_7700, roundDouble_0_9]
  rw [← n, Real.rpow_natCast,
    roundDouble_small _ (pow_7700_small _ (by norm_num) (by norm_num) (by norm_num)),
    mul_zero]
  exact roundDouble_small 0 (by rw [abs_zero]; exact zpow_pos (by norm_num) _)

/-! ## The claims -/

/-- C1: in `mouseMoveEvent` with the drag active and the left button held, for
every prior `object_rot_x` and every vertical pointer delta `dy`, with
`d = 0.7 * dy`, the wrap loops terminate (after `n` additions and `m`
subtractions of 360) and the new `object_rot_x` lies in `[0, 360)` and equals
`((rx_old + d) mod 360 + 360) mod 360`, both for `mod` read as C `fmod` and for
`mod` read as the floored modulus. -/
theorem rotation_wrap_x (s : GLView ℝ) (ev : QMouseEvent)
    (hd : s.mouse_drag_active = true) (hl : ev.buttons &&& LeftButton ≠ 0) :
    (0 ≤ (s.mouseMoveEvent ev).object_rot_x ∧ (s.mouseMoveEvent ev).object_rot_x < 360) ∧
      (s.mouseMoveEvent ev).object_rot_x =
        spec_wrap spec_mod_trunc s.object_rot_x
          (0.7 * ((ev.globalY - s.last_mouse_y : ℤ) : ℝ)) ∧
      (s.mouseMoveEvent ev).object_rot_x =
        spec_wrap spec_mod_floor s.object_rot_x
          (0.7 * ((ev.globalY - s.last_mouse_y : ℤ) : ℝ)) ∧
      ∃ n m : ℕ, (s.mouseMoveEvent ev).object_rot_x =
        s.object_rot_x + 0.7 * ((ev.globalY - s.last_mouse_y : ℤ) : ℝ)
          + 360 * (n : ℝ) - 360 * (m : ℝ) := by
  rw [mouseMove_rotate s ev hd hl, spec_wrap_trunc, spec_wrap_floor]
  simp only []
  rw [mul_comm (((ev.globalY - s.last_mouse_y : ℤ) : ℝ)) 0.7]
  exact ⟨wrap_mem _, (wrap_eq _).1, (wrap_eq _).1, (wrap_eq _).2⟩

theorem rotation_wrap_x_witness :
    ((1 : ℕ) &&& LeftButton ≠ 0) ∧
      (0 ≤ ((dragging (35 : ℝ) 0 25).mouseMoveEvent ⟨0, -2000, 1, 0⟩).object_rot_x ∧
        ((dragging (35 : ℝ) 0 25).mouseMoveEvent ⟨0, -2000, 1, 0⟩).object_rot_x < 360) :=
  ⟨by decide, (rotation_wrap_x (dragging 35 0 25) ⟨0, -2000, 1, 0⟩ rfl (by decide)).1⟩

/-- C4 as stated fails: from the constructor's `viewer_distance = 500` a
`wheelEvent` with delta 240 gives `500 * 0.9^2 = 405`, not `500 * (1/0.9)^2`. -/
theorem wheel_240_not_zoom_out :
    ((GLView.ctor : GLView ℝ).wheelEvent 240).viewer_distance ≠
      (GLView.ctor : GLView ℝ).viewer_distance * (1 / 0.9) ^ 2 := by
  have e : ((240 : ℤ) : ℝ) / 120.0 = 2 := by norm_num
  simp only [GLView.wheelEvent, GLView.ctor, pow_real]
  rw [e, Real.rpow_two]
  norm_num

/-- C4 (amended): for every prior `viewer_distance`, a `wheelEvent` whose delta
is 240 (two notches) leaves `viewer_distance` equal to the prior value
multiplied by `0.9^2`; it is a delta of -240 that multiplies it by `(1/0.9)^2`. -/
theorem wheel_two_notches (s : GLView ℝ) :
    (s.wheelEvent 240).viewer_distance = s.viewer_distance * 0.9 ^ 2 ∧
      (s.wheelEvent (-240)).viewer_distance = s.viewer_distance * (1 / 0.9) ^ 2 := by
  have e : ((240 : ℤ) : ℝ) / 120.0 = 2 := by norm_num
  have f : ((-240 : ℤ) : ℝ) / 120.0 = -2 := by norm_num
  simp only [GLView.wheelEvent, pow_real]
  rw [e, f, Real.rpow_neg (by norm_num), Real.rpow_two]
  constructor
  · rfl
  · congr 1
    norm_num

/-- C5 as stated fails: the source computes `viewer_distance` in `double`, and
from the constructor's state one `wheelEvent` with delta 924000 (7700 notches)
rounds `pow(0.9, 7700.0)` to 0, so `viewer_distance` becomes exactly 0 and the
invariant is lost. -/
theorem wheel_underflow_breaks_invariant :
    CameraInv (GLView.ctor : GLView ℝ) ∧
      ((GLView.ctor : GLView ℝ).wheelEvent_double 924000).viewer_distance = 0 ∧
      ¬ CameraInv ((GLView.ctor : GLView ℝ).wheelEvent_double 924000) := by
  refine ⟨ctor_inv, wheelEvent_double_924000, fun h => ?_⟩
  have p := h.2.2.2
  rw [wheelEvent_double_924000] at p
  exact lt_irrefl 0 p

/-- C5 (amended): reading the arithmetic as exact real arithmetic, the predicate
"the three angles lie in `[0, 360)` and `viewer_distance > 0`" holds in the state
set up by the constructor and is preserved by every event handler, for every
key, delta, pointer position, button set and modifier set; hence it holds after
every finite sequence of events, and `viewer_distance` never becomes zero. -/
theorem camera_invariant_exact :
    CameraInv (GLView.ctor : GLView ℝ) ∧
      (∀ (s : GLView ℝ) (e : Event), CameraInv s → CameraInv (s.handle e)) ∧
      (∀ (s : GLView ℝ) (key : ℤ), CameraInv s → CameraInv (s.keyPressEvent key)) ∧
      (∀ (s : GLView ℝ) (delta : ℤ), CameraInv s → CameraInv (s.wheelEvent delta)) ∧
      (∀ (s : GLView ℝ) (ev : QMouseEvent), CameraInv s → CameraInv (s.mousePressEvent ev)) ∧
      (∀ (s : GLView ℝ) (ev : QMouseEvent), CameraInv s → CameraInv (s.mouseMoveEvent ev)) ∧
      (∀ (s : GLView ℝ), CameraInv s → CameraInv s.mouseReleaseEvent) ∧
      ∀ evs : List Event,
        CameraInv ((GLView.ctor : GLView ℝ).run evs) ∧
          ((GLView.ctor : GLView ℝ).run evs).viewer_distance ≠ 0 :=
  ⟨ctor_inv, handle_preserves,
    fun s key h => handle_preserves s (.keyPress key) h,
    fun s delta h => handle_preserves s (.wheel delta) h,
    fun s ev h => handle_preserves s (.mousePress ev) h,
    fun s ev h => handle_preserves s (.mouseMove ev) h,
    fun s h => handle_preserves s (.mouseRelease ⟨0, 0, 0, 0⟩) h,
    fun evs => ⟨run_preserves evs _ ctor_inv, ne_of_gt (run_preserves evs _ ctor_inv).2.2.2⟩⟩

theorem camera_invariant_exact_witness :
    CameraInv ((GLView.ctor : GLView ℝ).handle (.wheel (-120000))) :=
  camera_invariant_exact.2.1 _ _ camera_invariant_exact.1

/-- C10: for every 16-element matrix `M`, `mat_mul` applied to the result of
`mat_id` and `M` yields `M`, and `mat_mul` applied to `M` and the result of
`mat_id` yields `M`, entry for entry (whatever the output arrays held before). -/
theorem mat_mul_mat_id_law (M trg t1 : Mat ℝ) :
    (∀ k, mat_mul trg (mat_id t1) M k = M k) ∧ (∀ k, mat_mul trg M (mat_id t1) k = M k) := by
  constructor
  · intro k
    refine congrFun (toMatrix_inj _ _ ?_) k
    rw [toMatrix_mat_mul, toMatrix_mat_id, one_mul]
  · intro k
    refine congrFun (toMatrix_inj _ _ ?_) k
    rw [toMatrix_mat_mul, toMatrix_mat_id, mul_one]

/-- C9 (amended): for every angle and every unit axis `(x, y, z)`, the top-left
3×3 block `R` of the matrix produced by `mat_rot` satisfies `R · Rᵗ = I` and
`det R = 1`, in exact real arithmetic. -/
theorem mat_rot_orthogonal_of_unit_axis (trg : Mat ℝ) (angle x y z : ℝ)
    (h : x * x + y * y + z * z = 1) :
    block3 (mat_rot trg angle x y z) * (block3 (mat_rot trg angle x y z)).transpose = 1 ∧
      (block3 (mat_rot trg angle x y z)).det = 1 := by
  rw [block3_mat_rot]
  have h1 := Real.sin_sq_add_cos_sq (Real.pi * angle / 180)
  generalize Real.sin (Real.pi * angle / 180) = s at h1
  generalize Real.cos (Real.pi * angle / 180) = c at h1
  constructor
  · ext i j
    simp only [Matrix.mul_apply, Fin.sum_univ_three, Matrix.transpose_apply]
    fin_cases i <;> fin_cases j <;> simp
    · linear_combination (1 - x * x) * h1 + (s ^ 2 + (1 - c) ^ 2 * (x * x)) * h
    · linear_combination (0 - x * y) * h1 + ((1 - c) ^ 2 * (x * y)) * h
    · linear_combination (0 - x * z) * h1 + ((1 - c) ^ 2 * (x * z)) * h
    · linear_combination (0 - y * x) * h1 + ((1 - c) ^ 2 * (y * x)) * h
    · linear_combination (1 - y * y) * h1 + (s ^ 2 + (1 - c) ^ 2 * (y * y)) * h
    · linear_combination (0 - y * z) * h1 + ((1 - c) ^ 2 * (y * z)) * h
    · linear_combination (0 - z * x) * h1 + ((1 - c) ^ 2 * (z * x)) * h
    · linear_combination (0 - z * y) * h1 + ((1 - c) ^ 2 * (z * y)) * h
    · linear_combination (1 - z * z) * h1 + (s ^ 2 + (1 - c) ^ 2 * (z * z)) * h
  · rw [Matrix.det_fin_three]
    simp
    linear_combination (1 + (1 - c) * (x * x + y * y + z * z - 1)) * h1 +
      (s ^ 2 * (1 + (1 - c) * (x * x + y * y + z * z - 1)) + (1 - c)) * h

theorem mat_rot_orthogonal_of_unit_axis_witness :
    ((0 : ℝ) * 0 + 0 * 0 + 1 * 1 = 1) ∧
      (block3 (mat_rot (uninit : Mat ℝ) (-25) 0 0 1)).det = 1 :=
  ⟨by norm_num, (mat_rot_orthogonal_of_unit_axis uninit (-25) 0 0 1 (by norm_num)).2⟩

/-- C9 as stated fails: for the axis `(2, 0, 0)`, which is not a unit vector,
and the angle 180 the 3×3 block of `mat_rot` is `diag(7, -1, -1)`; it is not
orthogonal and its determinant is not 1. -/
theorem mat_rot_axis_two_not_orthogonal :
    block3 (mat_rot (uninit : Mat ℝ) 180 2 0 0) *
        (block3 (mat_rot (uninit : Mat ℝ) 180 2 0 0)).transpose ≠ 1 ∧
      (block3 (mat_rot (uninit : Mat ℝ) 180 2 0 0)).det ≠ 1 := by
  have e : Real.pi * 180 / 180 = Real.pi := by ring
  rw [block3_mat_rot, e, Real.sin_pi, Real.cos_pi]
  constructor
  · intro h
    have h00 := congrFun (congrFun h 0) 0
    simp only [Matrix.mul_apply, Fin.sum_univ_three, Matrix.transpose_apply] at h00
    simp at h00
    norm_num at h00
  · rw [Matrix.det_fin_three]
    simp
    norm_num

/-- C7 as stated fails: at `rx = ry = 90`, `rz = 0` the matrix `tm` of the pan
branch differs from `mat_rot(-rx,1,0,0) · mat_rot(-ry,0,1,0) · mat_rot(-rz,0,0,1)`
(entry 1 is 1 in `tm` and 0 in that product). -/
theorem pan_tm_not_x_y_z_order :
    pan_tm (90 : ℝ) 90 0 ≠
      mat_mul uninit
        (mat_mul uninit (mat_rot uninit (-90) 1 0 0) (mat_rot uninit (-90) 0 1 0))
        (mat_rot uninit (-0) 0 0 1) := by
  intro h
  have h2 := congrArg toMatrix h
  rw [toMatrix_pan_tm uninit uninit uninit, toMatrix_mat_mul, toMatrix_mat_mul,
    toMatrix_mat_rot_x, toMatrix_mat_rot_y, toMatrix_mat_rot_z] at h2
  have e90 : Real.pi * (-90) / 180 = -(Real.pi / 2) := by ring
  have e0 : Real.pi * (-0) / 180 = 0 := by ring
  rw [e90, e0, Real.sin_neg, Real.cos_neg, Real.sin_pi_div_two, Real.cos_pi_div_two,
    Real.sin_zero, Real.cos_zero] at h2
  have h01 := congrFun (congrFun h2 0) 1
  simp only [Matrix.mul_apply, Fin.sum_univ_four] at h01
  simp at h01

/-- C7 (amended): for all angles `rx`, `ry`, `rz`, the matrix `tm` that the pan
branch of `mouseMoveEvent` has built just before it is multiplied with `vec`
equals the product `mat_rot(-rz, 0,0,1) · mat_rot(-ry, 0,1,0) · mat_rot(-rx, 1,0,0)`,
taken in that left-to-right order, where `mat_mul(a, b)` is the row-major
product `a·b`. -/
theorem pan_tm_composition_order (trg : Mat ℝ) (rx ry rz : ℝ) :
    pan_tm rx ry rz =
        mat_mul trg
          (mat_mul trg (mat_rot trg (-rz) 0 0 1) (mat_rot trg (-ry) 0 1 0))
          (mat_rot trg (-rx) 1 0 0) ∧
      toMatrix (pan_tm rx ry rz) =
        toMatrix (mat_rot trg (-rz) 0 0 1) * toMatrix (mat_rot trg (-ry) 0 1 0) *
          toMatrix (mat_rot trg (-rx) 1 0 0) := by
  refine ⟨toMatrix_inj _ _ ?_, toMatrix_pan_tm trg trg trg rx ry rz⟩
  rw [toMatrix_pan_tm trg trg trg, toMatrix_mat_mul, toMatrix_mat_mul]

/-- C8: for all angles, every `viewer_distance` and every pointer delta
`(dx, dy)` with the modifier not held, the translation increment that the pan
branch adds satisfies `V · (Δtx, Δty, Δtz) = (mx, 0, my)`, where
`V = mat_rot(rx, 1,0,0) · mat_rot(ry, 0,1,0) · mat_rot(rz, 0,0,1)` is the view
rotation of `paintGL`, `mx = dx * viewer_distance / 1000` and
`my = -dy * viewer_distance / 1000`; and the matrix `tm` used by pan is the
inverse of `V` on both sides. -/
theorem pan_relative_to_view (s : GLView ℝ) (ev : QMouseEvent) (trg : Mat ℝ)
    (hd : s.mouse_drag_active = true) (hl : ev.buttons &&& LeftButton = 0)
    (hs : ev.keyboardModifiers &&& ShiftModifier = 0) :
    Matrix.mulVec (block3 (view_rot trg s.object_rot_x s.object_rot_y s.object_rot_z))
        ![(s.mouseMoveEvent ev).object_trans_x - s.object_trans_x,
          (s.mouseMoveEvent ev).object_trans_y - s.object_trans_y,
          (s.mouseMoveEvent ev).object_trans_z - s.object_trans_z] =
      ![((ev.globalX - s.last_mouse_x : ℤ) : ℝ) * s.viewer_distance / 1000,
        0,
        -((ev.globalY - s.last_mouse_y : ℤ) : ℝ) * s.viewer_distance / 1000] ∧
      (∀ k, mat_mul trg (view_rot trg s.object_rot_x s.object_rot_y s.object_rot_z)
        (pan_tm s.object_rot_x s.object_rot_y s.object_rot_z) k = mat_id trg k) ∧
      (∀ k, mat_mul trg (pan_tm s.object_rot_x s.object_rot_y s.object_rot_z)
        (view_rot trg s.object_rot_x s.object_rot_y s.object_rot_z) k = mat_id trg k) := by
  have hV := view_rot_mul_pan_tm trg s.object_rot_x s.object_rot_y s.object_rot_z
  refine ⟨?_, fun k => congrFun (toMatrix_inj _ _ ?_) k, fun k => congrFun (toMatrix_inj _ _ ?_) k⟩
  · obtain ⟨⟨E00, E02⟩, ⟨E10, E12⟩, ⟨E20, E22⟩⟩ :=
      view_rot_pan_tm_entries trg s.object_rot_x s.object_rot_y s.object_rot_z
    obtain ⟨c3, c7, c11⟩ := pan_tm_col3 s.object_rot_x s.object_rot_y s.object_rot_z
    obtain ⟨r12, -, r14⟩ := pan_tm_row3 s.object_rot_x s.object_rot_y s.object_rot_z
    rw [mouseMove_pan s ev hd hl hs]
    simp only [Int.cast_neg]
    generalize view_rot trg s.object_rot_x s.object_rot_y s.object_rot_z = V at *
    generalize pan_tm s.object_rot_x s.object_rot_y s.object_rot_z = T at *
    generalize ((ev.globalX - s.last_mouse_x : ℤ) : ℝ) * s.viewer_distance / 1000 = mx
    generalize -((ev.globalY - s.last_mouse_y : ℤ) : ℝ) * s.viewer_distance / 1000 = my
    funext i
    simp only [Matrix.mulVec, Matrix.dotProduct, Fin.sum_univ_three]
    fin_cases i
    · show V 0 * (s.object_trans_x + (T 0 * mx + T 1 * 0 + T 2 * my + T 3) - s.object_trans_x) +
          V 1 * (s.object_trans_y + (T 4 * mx + T 5 * 0 + T 6 * my + T 7) - s.object_trans_y) +
          V 2 * (s.object_trans_z + (T 8 * mx + T 9 * 0 + T 10 * my + T 11) - s.object_trans_z) =
        mx
      linear_combination mx * E00 + my * E02 - mx * V 3 * r12 - my * V 3 * r14 +
        V 0 * c3 + V 1 * c7 + V 2 * c11
    · show V 4 * (s.object_trans_x + (T 0 * mx + T 1 * 0 + T 2 * my + T 3) - s.object_trans_x) +
          V 5 * (s.object_trans_y + (T 4 * mx + T 5 * 0 + T 6 * my + T 7) - s.object_trans_y) +
          V 6 * (s.object_trans_z + (T 8 * mx + T 9 * 0 + T 10 * my + T 11) - s.object_trans_z) =
        0
      linear_combination mx * E10 + my * E12 - mx * V 7 * r12 - my * V 7 * r14 +
        V 4 * c3 + V 5 * c7 + V 6 * c11
    · show V 8 * (s.object_trans_x + (T 0 * mx + T 1 * 0 + T 2 * my + T 3) - s.object_trans_x) +
          V 9 * (s.object_trans_y + (T 4 * mx + T 5 * 0 + T 6 * my + T 7) - s.object_trans_y) +
          V 10 * (s.object_trans_z + (T 8 * mx + T 9 * 0 + T 10 * my + T 11) - s.object_trans_z) =
        my
      linear_combination mx * E20 + my * E22 - mx * V 11 * r12 - my * V 11 * r14 +
        V 8 * c3 + V 9 * c7 + V 10 * c11
  · rw [toMatrix_mat_mul, toMatrix_mat_id]
    exact hV
  · rw [toMatrix_mat_mul, toMatrix_mat_id]
    exact Matrix.mul_eq_one_comm.mp hV

theorem pan_relative_to_view_witness :
    ((2 : ℕ) &&& LeftButton = 0 ∧ (0 : ℕ) &&& ShiftModifier = 0) ∧
      ∀ k, mat_mul uninit (view_rot uninit (35 : ℝ) 0 25) (pan_tm (35 : ℝ) 0 25) k =
        mat_id uninit k :=
  ⟨⟨by decide, by decide⟩,
    (pan_relative_to_view (dragging 35 0 25) ⟨30, 40, 2, 0⟩ uninit rfl
      (by decide) (by decide)).2.1⟩

end Glview
